import Mathlib

/-!
# Verification of the clan power-estimation utilities

Shallow embedding of the two source files `src/app.py` (namespace `App`)
and `src/app_2.py` (namespace `App2`) of the
`fomo_fighter_power_estimation` repository, and proofs settling the
frozen claims about the spec.

Modelling conventions:

* Python floats in the power formulas are modelled by exact rationals
  (`ℚ`); every claim-relevant comparison there is far outside binary64
  rounding error.
* Where a claim's truth genuinely depends on IEEE binary64 rounding
  (`parse_stat_input`, `format_stat`), the embedding implements
  correctly-rounded decimal-to-binary64 conversion and binary64
  multiplication on dyadic rationals, so those functions evaluate exactly
  as CPython does on the claims' inputs (normal range; subnormals are
  outside every input considered here).
* Python dicts are association lists with first-match lookup and
  replace-in-place insertion, which reproduces dict lookup, update and
  insertion-order semantics for the operations used by the source.
* The wall clock behind `get_utc_timestamp` is an explicit `now : ℕ`
  parameter threaded through the state-changing operations.
-/

namespace Fomo

/-! ## Tab 1: clan power calculator -/

/-- A calculator roster entry.  `level` is display-only, used by no formula
(Lite-mode entries in the source do not even carry it), so it is omitted. -/
structure CalcMember where
  race : String
  power : ℚ
deriving DecidableEq

/-- `BIAS_VALUE = 0.84`, identical in both source files. -/
def BIAS_VALUE : ℚ := 0.84

namespace App

/-- `app.py` lines 30–44: Frog ×1.5, Cat 5.2 ATK / 2.5 DEF,
Dog 2.5 ATK / 5.2 DEF, identity fallback for unknown races. -/
def calculate_power (race : String) (base_power : ℚ) (mode : String) : ℚ :=
  if race == "Frog" then base_power * 1.5
  else if race == "Cat" then
    if mode == "ATK" then base_power * 5.2 else base_power * 2.5
  else if race == "Dog" then
    if mode == "ATK" then base_power * 2.5 else base_power * 5.2
  else base_power

/-- `app.py` lines 46–51. -/
def calculate_total_power_full (members : List CalcMember) (mode : String) : ℚ :=
  (members.foldl (fun total m => total + calculate_power m.race m.power mode) 0) * BIAS_VALUE

/-- `app.py` lines 53–60: returns only the *effective* (multiplied) sum of
the major race — unlike `app_2.py` it does not track the raw base sum. -/
def calculate_major_race_power (members : List CalcMember) (mode : String) : ℚ :=
  let major_race := if mode == "DEF" then "Dog" else "Cat"
  members.foldl
    (fun total m =>
      if m.race == major_race then total + calculate_power m.race m.power mode else total)
    0

/-- `app.py` lines 62–66: the subtraction uses the effective major sum. -/
def calculate_total_power_lite (members : List CalcMember) (mode : String)
    (clan_total_power : ℚ) : ℚ :=
  let major_power := calculate_major_race_power members mode
  let remaining_power := (clan_total_power - major_power) * 1.8
  (major_power + remaining_power) * BIAS_VALUE

end App

namespace App2

/-- `app_2.py` lines 20–34: Frog ×2.5 and Cat/Dog major multiplier ×5. -/
def calculate_power (race : String) (base_power : ℚ) (mode : String) : ℚ :=
  if race == "Frog" then base_power * 2.5
  else if race == "Cat" then
    if mode == "ATK" then base_power * 5 else base_power * 2.5
  else if race == "Dog" then
    if mode == "ATK" then base_power * 2.5 else base_power * 5
  else base_power

/-- `app_2.py` lines 36–41. -/
def calculate_total_power_full (members : List CalcMember) (mode : String) : ℚ :=
  (members.foldl (fun total m => total + calculate_power m.race m.power mode) 0) * BIAS_VALUE

/-- `app_2.py` lines 43–52: returns `(effective sum, raw base sum)` over
the major-race members. -/
def calculate_major_race_power (members : List CalcMember) (mode : String) : ℚ × ℚ :=
  let major_race := if mode == "DEF" then "Dog" else "Cat"
  members.foldl
    (fun acc m =>
      if m.race == major_race then
        (acc.1 + calculate_power m.race m.power mode, acc.2 + m.power)
      else acc)
    (0, 0)

/-- `app_2.py` lines 54–58. -/
def calculate_total_power_lite (members : List CalcMember) (mode : String)
    (clan_total_power : ℚ) : ℚ :=
  let p := calculate_major_race_power members mode
  let remaining_power := (clan_total_power - p.2) * 1.8
  (p.1 + remaining_power) * BIAS_VALUE

end App2

/-! ### Spec-side definitions for the Lite-mode aggregation (§4.3) -/

/-- Spec §4.3 step 1, in the spec's own words:
`majorRace = Cat if mode==ATK else Dog`. -/
def specMajorRace (mode : String) : String :=
  if mode == "ATK" then "Cat" else "Dog"

/-- Spec §4.3 step 2: `Σ member.power` over the major-race members. -/
def majorRawSum (members : List CalcMember) (mode : String) : ℚ :=
  ((members.filter (fun m => m.race == specMajorRace mode)).map (fun m => m.power)).sum

/-- Spec §4.3 step 3 (parameterised by the effective-power table so that it
can be compared against either source revision). -/
def majorEffectiveWith (pw : String → ℚ → String → ℚ)
    (members : List CalcMember) (mode : String) : ℚ :=
  ((members.filter (fun m => m.race == specMajorRace mode)).map
    (fun m => pw m.race m.power mode)).sum

/-! ### Fold lemmas -/

lemma foldl_add_filter (mr : String) (pw : String → ℚ → String → ℚ) (mode : String) :
    ∀ (l : List CalcMember) (a : ℚ),
      l.foldl (fun t m => if m.race == mr then t + pw m.race m.power mode else t) a
        = a + ((l.filter (fun m => m.race == mr)).map (fun m => pw m.race m.power mode)).sum
  | [], a => by simp
  | m :: rest, a => by
    rw [List.foldl_cons,
      foldl_add_filter mr pw mode rest (if m.race == mr then a + pw m.race m.power mode else a)]
    by_cases h : m.race = mr
    · simp [h, add_assoc]
    · simp [h]

lemma foldl_pair_filter (mr : String) (pw : String → ℚ → String → ℚ) (mode : String) :
    ∀ (l : List CalcMember) (a : ℚ × ℚ),
      l.foldl
        (fun acc m =>
          if m.race == mr then (acc.1 + pw m.race m.power mode, acc.2 + m.power) else acc) a
        = (a.1 + ((l.filter (fun m => m.race == mr)).map (fun m => pw m.race m.power mode)).sum,
           a.2 + ((l.filter (fun m => m.race == mr)).map (fun m => m.power)).sum)
  | [], a => by simp
  | m :: rest, a => by
    rw [List.foldl_cons,
      foldl_pair_filter mr pw mode rest
        (if m.race == mr then (a.1 + pw m.race m.power mode, a.2 + m.power) else a)]
    by_cases h : m.race = mr
    · simp [h, add_assoc]
    · simp [h]

lemma major_race_power_eq2 (members : List CalcMember) (mode : String)
    (hmode : mode = "ATK" ∨ mode = "DEF") :
    App2.calculate_major_race_power members mode
      = (majorEffectiveWith App2.calculate_power members mode, majorRawSum members mode) := by
  rcases hmode with h | h <;> subst h
  · simpa [App2.calculate_major_race_power, majorEffectiveWith, majorRawSum, specMajorRace]
      using foldl_pair_filter "Cat" App2.calculate_power "ATK" members (0, 0)
  · simpa [App2.calculate_major_race_power, majorEffectiveWith, majorRawSum, specMajorRace]
      using foldl_pair_filter "Dog" App2.calculate_power "DEF" members (0, 0)

lemma major_race_power_eq1 (members : List CalcMember) (mode : String)
    (hmode : mode = "ATK" ∨ mode = "DEF") :
    App.calculate_major_race_power members mode
      = majorEffectiveWith App.calculate_power members mode := by
  rcases hmode with h | h <;> subst h
  · simpa [App.calculate_major_race_power, majorEffectiveWith, specMajorRace]
      using foldl_add_filter "Cat" App.calculate_power "ATK" members 0
  · simpa [App.calculate_major_race_power, majorEffectiveWith, specMajorRace]
      using foldl_add_filter "Dog" App.calculate_power "DEF" members 0

/-! ### Claim C1 -/

/-- C1 (counterexample).  The claim's own example — mode ATK,
`clanTotalPower = 1000`, one Cat member with power 400 — does not yield
2654.4 on either source file: `app_2.py` yields 2587.2 (its Cat-ATK
multiplier is 5, not 5.2) and `app.py` yields 114.24 (it subtracts the
effective, not the raw, major sum). -/
theorem lite_total_example_ne :
    App2.calculate_total_power_lite [⟨"Cat", 400⟩] "ATK" 1000 = 2587.2 ∧
    App.calculate_total_power_lite [⟨"Cat", 400⟩] "ATK" 1000 = 114.24 ∧
    (2587.2 : ℚ) ≠ 2654.4 ∧ (114.24 : ℚ) ≠ 2654.4 := by
  refine ⟨?_, ?_, by norm_num, by norm_num⟩ <;>
    norm_num [App2.calculate_total_power_lite, App2.calculate_major_race_power,
      App2.calculate_power, App.calculate_total_power_lite, App.calculate_major_race_power,
      App.calculate_power, BIAS_VALUE,
      show ("ATK" : String) ≠ "DEF" from by decide,
      show ("Cat" : String) ≠ "Frog" from by decide]

/-- C1 (amended).  For modes ATK/DEF, `app_2.py`'s Lite total follows the
spec's six-step structure — `(majorEffective + (clanTotalPower -
majorRawSum) * 1.8) * 0.84` — but with `app_2.py`'s own multiplier table
(Cat ×5 for ATK), while `app.py` subtracts the *effective* major sum in
place of the raw one. -/
theorem lite_total_formula (members : List CalcMember) (mode : String) (T : ℚ)
    (hmode : mode = "ATK" ∨ mode = "DEF") :
    App2.calculate_total_power_lite members mode T
      = (majorEffectiveWith App2.calculate_power members mode
          + (T - majorRawSum members mode) * 1.8) * BIAS_VALUE ∧
    App.calculate_total_power_lite members mode T
      = (majorEffectiveWith App.calculate_power members mode
          + (T - majorEffectiveWith App.calculate_power members mode) * 1.8) * BIAS_VALUE := by
  constructor
  · rw [App2.calculate_total_power_lite, major_race_power_eq2 members mode hmode]
  · rw [App.calculate_total_power_lite, major_race_power_eq1 members mode hmode]

/-- C1 (witness for `lite_total_formula`). -/
theorem lite_total_formula_witness :
    App2.calculate_total_power_lite [⟨"Cat", 400⟩] "ATK" 1000
      = (majorEffectiveWith App2.calculate_power [⟨"Cat", 400⟩] "ATK"
          + (1000 - majorRawSum [⟨"Cat", 400⟩] "ATK") * 1.8) * BIAS_VALUE :=
  (lite_total_formula [⟨"Cat", 400⟩] "ATK" 1000 (Or.inl rfl)).1

/-! ### Claim C2 -/

/-- C2 (counterexample).  `app_2.py`'s `calculate_power` does not follow
the §4.1 table: a Frog with base power 100 yields 250, not `100 * 1.5`. -/
theorem calculate_power_table_ne :
    App2.calculate_power "Frog" 100 "ATK" = 250 ∧ (250 : ℚ) ≠ 100 * 1.5 := by
  constructor
  · norm_num [App2.calculate_power]
  · norm_num

/-- C2 (amended).  `calculate_power` is pure and total in both files.
`app.py` follows the §4.1 table exactly (Frog 1.5/1.5, Cat 5.2 ATK /
2.5 DEF, Dog 2.5 ATK / 5.2 DEF); `app_2.py` instead uses Frog 2.5/2.5,
Cat 5 ATK / 2.5 DEF, Dog 2.5 ATK / 5 DEF.  Both return `basePower`
unchanged for any race outside {Dog, Cat, Frog}, never an error. -/
theorem calculate_power_table :
    (∀ p : ℚ,
      App.calculate_power "Frog" p "ATK" = p * 1.5 ∧
      App.calculate_power "Frog" p "DEF" = p * 1.5 ∧
      App.calculate_power "Cat" p "ATK" = p * 5.2 ∧
      App.calculate_power "Cat" p "DEF" = p * 2.5 ∧
      App.calculate_power "Dog" p "ATK" = p * 2.5 ∧
      App.calculate_power "Dog" p "DEF" = p * 5.2) ∧
    (∀ p : ℚ,
      App2.calculate_power "Frog" p "ATK" = p * 2.5 ∧
      App2.calculate_power "Frog" p "DEF" = p * 2.5 ∧
      App2.calculate_power "Cat" p "ATK" = p * 5 ∧
      App2.calculate_power "Cat" p "DEF" = p * 2.5 ∧
      App2.calculate_power "Dog" p "ATK" = p * 2.5 ∧
      App2.calculate_power "Dog" p "DEF" = p * 5) ∧
    (∀ (race : String) (p : ℚ) (mode : String),
      race ≠ "Frog" → race ≠ "Cat" → race ≠ "Dog" →
      App.calculate_power race p mode = p ∧ App2.calculate_power race p mode = p) := by
  refine ⟨fun p => ⟨rfl, rfl, rfl, rfl, rfl, rfl⟩,
          fun p => ⟨rfl, rfl, rfl, rfl, rfl, rfl⟩, ?_⟩
  intro race p mode h1 h2 h3
  constructor <;>
    simp [App.calculate_power, App2.calculate_power, h1, h2, h3]

/-- C2 (witness for `calculate_power_table`): the identity fallback at a
concrete unknown race. -/
theorem calculate_power_table_witness :
    App.calculate_power "Unicorn" 7 "ATK" = 7 ∧
    App2.calculate_power "Unicorn" 7 "ATK" = 7 :=
  calculate_power_table.2.2 "Unicorn" 7 "ATK"
    (by decide) (by decide) (by decide)

/-! ## Tab 2: member stats manager (`app_2.py`)

Python string helpers, rebuilt on `List Char` so that every operation is
structurally recursive and kernel-evaluable.  `pyStrip` models `str.strip()`
(ASCII whitespace), `pyLower`/`pyUpper` model `str.lower()`/`str.upper()`
(all inputs in the source are ASCII). -/

def pyIsSpace (c : Char) : Bool :=
  c == ' ' || c == '\t' || c == '\n' || c == '\r' || c.toNat == 11 || c.toNat == 12

def pyStrip (s : String) : String :=
  ⟨((s.data.dropWhile pyIsSpace).reverse.dropWhile pyIsSpace).reverse⟩

def pyLower (s : String) : String := ⟨s.data.map Char.toLower⟩

def pyUpper (s : String) : String := ⟨s.data.map Char.toUpper⟩

/-! ### Python dict model

Association lists with first-match lookup and replace-in-place insertion:
exactly a dict's lookup / `d[k] = v` / `del d[k]` / `d.update(...)`
semantics, including preservation of insertion order. -/

def dictGet {α : Type} : List (String × α) → String → Option α
  | [], _ => none
  | kv :: rest, k => if kv.1 = k then some kv.2 else dictGet rest k

def dictInsert {α : Type} : List (String × α) → String → α → List (String × α)
  | [], k, v => [(k, v)]
  | kv :: rest, k, v => if kv.1 = k then (k, v) :: rest else kv :: dictInsert rest k v

def dictErase {α : Type} : List (String × α) → String → List (String × α)
  | [], _ => []
  | kv :: rest, k => if kv.1 = k then rest else kv :: dictErase rest k

/-- `d.update(incoming)`: insert the incoming pairs left to right. -/
def dictUpdate {α : Type} (s incoming : List (String × α)) : List (String × α) :=
  incoming.foldl (fun acc kv => dictInsert acc kv.1 kv.2) s

def dictModify {α : Type} : List (String × α) → String → (α → α) → List (String × α)
  | [], _, _ => []
  | kv :: rest, k, f => if kv.1 = k then (kv.1, f kv.2) :: rest else kv :: dictModify rest k f

/-- The dict invariant: keys occur at most once. -/
def keysNodup {α : Type} (s : List (String × α)) : Prop := (s.map Prod.fst).Nodup

def countKey {α : Type} : List (String × α) → String → ℕ
  | [], _ => 0
  | kv :: rest, k => (if kv.1 = k then 1 else 0) + countKey rest k

/-! ### dict lemmas -/

lemma dictGet_insert_self {α : Type} :
    ∀ (s : List (String × α)) (k : String) (v : α), dictGet (dictInsert s k v) k = some v
  | [], k, v => by simp [dictInsert, dictGet]
  | kv :: rest, k, v => by
    by_cases h : kv.1 = k <;> simp [dictInsert, dictGet, h, dictGet_insert_self rest k v]

lemma dictGet_insert_ne {α : Type} :
    ∀ (s : List (String × α)) (k : String) (v : α) (k' : String), k' ≠ k →
      dictGet (dictInsert s k v) k' = dictGet s k'
  | [], k, v, k', h => by simp [dictInsert, dictGet, Ne.symm h]
  | kv :: rest, k, v, k', h => by
    by_cases hk : kv.1 = k
    · simp [dictInsert, dictGet, hk, Ne.symm h]
    · simp [dictInsert, dictGet, hk, dictGet_insert_ne rest k v k' h]

lemma dictGet_eq_none_of_not_mem {α : Type} :
    ∀ (s : List (String × α)) (k : String), k ∉ s.map Prod.fst → dictGet s k = none
  | [], k, _ => rfl
  | kv :: rest, k, h => by
    simp only [List.map_cons, List.mem_cons] at h
    push_neg at h
    simp [dictGet, Ne.symm h.1, dictGet_eq_none_of_not_mem rest k h.2]

lemma mem_keys_insert {α : Type} :
    ∀ (s : List (String × α)) (k : String) (v : α) (x : String),
      x ∈ (dictInsert s k v).map Prod.fst ↔ x ∈ s.map Prod.fst ∨ x = k
  | [], k, v, x => by simp [dictInsert]
  | kv :: rest, k, v, x => by
    by_cases h : kv.1 = k
    · subst h
      simp [dictInsert]
      tauto
    · simp [dictInsert, h, mem_keys_insert rest k v x]
      tauto

lemma keysNodup_insert {α : Type} :
    ∀ (s : List (String × α)) (k : String) (v : α), keysNodup s → keysNodup (dictInsert s k v)
  | [], k, v, _ => by simp [keysNodup, dictInsert]
  | kv :: rest, k, v, h => by
    rw [keysNodup, List.map_cons, List.nodup_cons] at h
    by_cases hk : kv.1 = k
    · subst hk
      simpa [keysNodup, dictInsert, List.nodup_cons] using h
    · have := keysNodup_insert rest k v h.2
      simp only [keysNodup, dictInsert, if_neg hk, List.map_cons, List.nodup_cons]
      exact ⟨fun hmem => by
        rcases (mem_keys_insert rest k v kv.1).1 hmem with h1 | h1
        · exact h.1 h1
        · exact hk h1, this⟩

lemma countKey_eq_zero_of_not_mem {α : Type} :
    ∀ (s : List (String × α)) (k : String), k ∉ s.map Prod.fst → countKey s k = 0
  | [], k, _ => rfl
  | kv :: rest, k, h => by
    simp only [List.map_cons, List.mem_cons] at h
    push_neg at h
    simp [countKey, Ne.symm h.1, countKey_eq_zero_of_not_mem rest k h.2]

lemma countKey_insert_of_nodup {α : Type} :
    ∀ (s : List (String × α)) (k : String) (v : α), keysNodup s →
      countKey (dictInsert s k v) k = 1
  | [], k, v, _ => by simp [countKey, dictInsert]
  | kv :: rest, k, v, h => by
    rw [keysNodup, List.map_cons, List.nodup_cons] at h
    by_cases hk : kv.1 = k
    · have h0 : countKey rest k = 0 := by
        refine countKey_eq_zero_of_not_mem rest k ?_
        rw [← hk]
        exact h.1
      simp [countKey, dictInsert, hk, h0]
    · simp [countKey, dictInsert, hk, countKey_insert_of_nodup rest k v h.2]

lemma length_dictErase_of_mem {α : Type} :
    ∀ (s : List (String × α)) (k : String), (dictGet s k).isSome →
      (dictErase s k).length + 1 = s.length
  | [], k, h => by simp [dictGet] at h
  | kv :: rest, k, h => by
    by_cases hk : kv.1 = k
    · simp [dictErase, hk]
    · simp only [dictGet, if_neg hk] at h
      simp [dictErase, hk, length_dictErase_of_mem rest k h]

lemma dictGet_dictErase_self {α : Type} :
    ∀ (s : List (String × α)) (k : String), keysNodup s →
      dictGet (dictErase s k) k = none
  | [], k, _ => rfl
  | kv :: rest, k, h => by
    rw [keysNodup, List.map_cons, List.nodup_cons] at h
    by_cases hk : kv.1 = k
    · have h0 : dictGet rest k = none := by
        refine dictGet_eq_none_of_not_mem rest k ?_
        rw [← hk]
        exact h.1
      simp [dictErase, hk, h0]
    · simp [dictErase, dictGet, hk, dictGet_dictErase_self rest k h.2]

lemma dictGet_dictErase_ne {α : Type} :
    ∀ (s : List (String × α)) (k k' : String), k' ≠ k →
      dictGet (dictErase s k) k' = dictGet s k'
  | [], k, k', _ => rfl
  | kv :: rest, k, k', h => by
    by_cases hk : kv.1 = k
    · simp [dictErase, dictGet, hk, Ne.symm h]
    · simp [dictErase, dictGet, hk, dictGet_dictErase_ne rest k k' h]

lemma dictGet_dictUpdate {α : Type} :
    ∀ (incoming s : List (String × α)) (k : String), keysNodup incoming →
      dictGet (dictUpdate s incoming) k
        = (dictGet incoming k).orElse (fun _ => dictGet s k)
  | [], s, k, _ => by simp [dictUpdate, dictGet, Option.orElse]
  | kv :: rest, s, k, h => by
    rw [keysNodup, List.map_cons, List.nodup_cons] at h
    have step : dictUpdate s (kv :: rest) = dictUpdate (dictInsert s kv.1 kv.2) rest := rfl
    rw [step, dictGet_dictUpdate rest (dictInsert s kv.1 kv.2) k h.2]
    by_cases hk : kv.1 = k
    · subst hk
      rw [dictGet_eq_none_of_not_mem rest kv.1 h.1, dictGet_insert_self]
      simp [dictGet, Option.orElse]
    · rw [dictGet_insert_ne s kv.1 kv.2 k (Ne.symm hk)]
      simp [dictGet, hk, Option.orElse]

lemma dictGet_dictModify_self {α : Type} :
    ∀ (s : List (String × α)) (k : String) (f : α → α) (v : α),
      dictGet s k = some v → dictGet (dictModify s k f) k = some (f v)
  | [], k, f, v, h => by simp [dictGet] at h
  | kv :: rest, k, f, v, h => by
    by_cases hk : kv.1 = k
    · simp only [dictGet, if_pos hk, Option.some.injEq] at h
      subst h
      simp [dictModify, dictGet, hk]
    · simp only [dictGet, if_neg hk] at h
      simp [dictModify, dictGet, hk, dictGet_dictModify_self rest k f v h]

lemma dictGet_dictModify_ne {α : Type} :
    ∀ (s : List (String × α)) (k : String) (f : α → α) (k' : String), k' ≠ k →
      dictGet (dictModify s k f) k' = dictGet s k'
  | [], k, f, k', _ => rfl
  | kv :: rest, k, f, k', h => by
    by_cases hk : kv.1 = k
    · simp [dictModify, dictGet, hk, Ne.symm h]
    · simp [dictModify, dictGet, hk, dictGet_dictModify_ne rest k f k' h]

/-! ### Member stats store (`app_2.py`) -/

/-- `SECRET_KEY` from `app_2.py` line 66. -/
def SECRET_KEY : String := "windissupervippro"

/-- The record written at `members[name_key]` (`app_2.py` lines 793–798).
`def` is a reserved word in both languages, hence the field name
`def_val`, matching the local variable the source itself uses.
`updated_at` stands for the `get_utc_timestamp()` string; timestamps are
modelled as naturals ordered as the wall clock is. -/
structure StatMember where
  name : String
  atk : ℤ
  def_val : ℤ
  updated_at : ℕ
deriving DecidableEq

abbrev Store := List (String × StatMember)

/-- `app_2.py` lines 790–798 (manual add/update):
`name_key = name.strip().lower()`, `is_update = name_key in members`,
then `members[name_key] = {"name": name.strip(), "atk": .., "def": ..,
"updated_at": get_utc_timestamp()}`.  Returns `(is_update, new store)`. -/
def upsert_member (members : Store) (name : String) (atk def_val : ℤ) (now : ℕ) :
    Bool × Store :=
  let name_key := pyLower (pyStrip name)
  ((dictGet members name_key).isSome,
   dictInsert members name_key ⟨pyStrip name, atk, def_val, now⟩)

/-- `app_2.py` lines 786–809: the submit handler rejects an empty trimmed
name (`if name.strip():` … `else: st.error("Please enter a name")`). -/
def add_member_submit (members : Store) (name : String) (atk def_val : ℤ) (now : ℕ) :
    Store :=
  if pyStrip name = "" then members else (upsert_member members name atk def_val now).2

/-- One queued upsert call (name as typed, parsed stats, wall-clock time). -/
structure UpsertReq where
  name : String
  atk : ℤ
  def_val : ℤ
  now : ℕ
deriving DecidableEq

def apply_upserts (members : Store) (reqs : List UpsertReq) : Store :=
  reqs.foldl (fun s r => (upsert_member s r.name r.atk r.def_val r.now).2) members

lemma apply_upserts_append (members : Store) (reqs : List UpsertReq) (r : UpsertReq) :
    apply_upserts members (reqs ++ [r])
      = (upsert_member (apply_upserts members reqs) r.name r.atk r.def_val r.now).2 := by
  simp [apply_upserts, List.foldl_append]

lemma keysNodup_apply_upserts :
    ∀ (reqs : List UpsertReq) (members : Store), keysNodup members →
      keysNodup (apply_upserts members reqs)
  | [], members, h => h
  | r :: rest, members, h =>
    keysNodup_apply_upserts rest _
      (keysNodup_insert members (pyLower (pyStrip r.name)) _ h)

/-- C4 (theorem).  Key-uniqueness and idempotence of upsert: after any
nonempty sequence of upserts whose names all normalise (trim + lowercase)
to the same key, a store satisfying the dict invariant holds exactly one
entry at that key; its fields are entirely those of the last write (full
record replacement, display name with the last write's casing and
trimming); and for two successive writes under a monotone clock the second
entry's `updated_at` is ≥ the first's. -/
theorem upsert_key_unique :
    (∀ (store : Store) (reqs : List UpsertReq) (r : UpsertReq) (key : String),
      keysNodup store →
      (∀ x ∈ reqs ++ [r], pyLower (pyStrip x.name) = key) →
      keysNodup (apply_upserts store (reqs ++ [r])) ∧
      countKey (apply_upserts store (reqs ++ [r])) key = 1 ∧
      dictGet (apply_upserts store (reqs ++ [r])) key
        = some ⟨pyStrip r.name, r.atk, r.def_val, r.now⟩) ∧
    (∀ (store : Store) (n₁ n₂ : String) (a₁ d₁ a₂ d₂ : ℤ) (t₁ t₂ : ℕ),
      pyLower (pyStrip n₁) = pyLower (pyStrip n₂) → t₁ ≤ t₂ →
      dictGet (upsert_member store n₁ a₁ d₁ t₁).2 (pyLower (pyStrip n₂))
          = some ⟨pyStrip n₁, a₁, d₁, t₁⟩ ∧
      dictGet (upsert_member (upsert_member store n₁ a₁ d₁ t₁).2 n₂ a₂ d₂ t₂).2
          (pyLower (pyStrip n₂))
          = some ⟨pyStrip n₂, a₂, d₂, t₂⟩ ∧
      (⟨pyStrip n₁, a₁, d₁, t₁⟩ : StatMember).updated_at
        ≤ (⟨pyStrip n₂, a₂, d₂, t₂⟩ : StatMember).updated_at) := by
  constructor
  · intro store reqs r key hnod hkeys
    have hr : pyLower (pyStrip r.name) = key :=
      hkeys r (by simp)
    have hmid : keysNodup (apply_upserts store reqs) :=
      keysNodup_apply_upserts reqs store hnod
    rw [apply_upserts_append]
    refine ⟨?_, ?_, ?_⟩
    · exact keysNodup_insert _ _ _ hmid
    · rw [upsert_member]
      simp only [hr]
      exact countKey_insert_of_nodup _ key _ hmid
    · rw [upsert_member]
      simp only [hr]
      exact dictGet_insert_self _ key _
  · intro store n₁ n₂ a₁ d₁ a₂ d₂ t₁ t₂ hname ht
    refine ⟨?_, ?_, ht⟩
    · rw [upsert_member, ← hname]
      exact dictGet_insert_self _ _ _
    · rw [upsert_member]
      exact dictGet_insert_self _ _ _

/-- C4 (witness for `upsert_key_unique`): upserting `"ALICE"` then
`"Alice"` leaves one entry keyed `"alice"` holding the last write. -/
theorem upsert_key_unique_witness :
    dictGet (apply_upserts []
        (([⟨"ALICE", 10, 20, 0⟩] : List UpsertReq) ++ [⟨"Alice", 10, 20, 1⟩])) "alice"
      = some ⟨pyStrip "Alice", 10, 20, 1⟩ :=
  (upsert_key_unique.1 [] [⟨"ALICE", 10, 20, 0⟩] ⟨"Alice", 10, 20, 1⟩ "alice"
    (by simp [keysNodup]) (by decide)).2.2

/-- `app_2.py` lines 707–714 (import confirmation): Replace mode sets
`members = st.session_state.import_data.copy()`; Merge mode runs
`members.update(st.session_state.import_data)`. -/
def import_members (members import_data : Store) (replaceAll : Bool) : Store :=
  if replaceAll then import_data else dictUpdate members import_data

/-- C5 (theorem).  Replace yields exactly the incoming mapping; Merge keeps
keys only in the old store, fully replaces every key of the incoming
mapping with the incoming entry, and yields no other keys — captured by
the lookup identity `get (merge) k = (get incoming k).orElse (get store k)`. -/
theorem import_members_semantics (store incoming : Store)
    (hinc : keysNodup incoming) :
    import_members store incoming true = incoming ∧
    ∀ k, dictGet (import_members store incoming false) k
        = (dictGet incoming k).orElse (fun _ => dictGet store k) := by
  refine ⟨rfl, fun k => ?_⟩
  exact dictGet_dictUpdate incoming store k hinc

/-- C5 (witness for `import_members_semantics`): the spec's example —
`store = {"a": atk 1}`, `incoming = {"a": atk 2, "b": …}` — where the
merged store returns the incoming entry at `"a"`. -/
theorem import_members_semantics_witness :
    dictGet
      (import_members [("a", ⟨"a", 1, 0, 0⟩)]
        [("a", ⟨"a", 2, 0, 1⟩), ("b", ⟨"b", 3, 0, 1⟩)] false) "a"
      = (dictGet [("a", ⟨"a", 2, 0, 1⟩), ("b", ⟨"b", 3, 0, 1⟩)] "a").orElse
          (fun _ => dictGet [("a", ⟨"a", 1, 0, 0⟩)] "a") :=
  (import_members_semantics [("a", ⟨"a", 1, 0, 0⟩)]
    [("a", ⟨"a", 2, 0, 1⟩), ("b", ⟨"b", 3, 0, 1⟩)] (by simp [keysNodup])).2 "a"

/-- `app_2.py` lines 931–942 (delete confirmation dialog): if the entered
secret equals `SECRET_KEY`, `del members[st.session_state.delete_pending]`
and save; otherwise surface "Invalid secret key!" and leave the store
untouched.  The `Bool` is the success flag (`false` = auth error). -/
def confirm_delete_member (members : Store) (delete_pending secret : String) :
    Bool × Store :=
  if secret = SECRET_KEY then (true, dictErase members delete_pending)
  else (false, members)

/-- C7 (theorem).  Secret-gated delete: a wrong secret reports the auth
error and changes nothing; the right secret removes exactly the pending
key — the count drops by one, the key is gone, all other entries are
untouched. -/
theorem delete_member_gated (members : Store) (pending secret : String) :
    (secret ≠ SECRET_KEY → confirm_delete_member members pending secret = (false, members)) ∧
    (secret = SECRET_KEY → keysNodup members → (dictGet members pending).isSome →
      (confirm_delete_member members pending secret).2.length + 1 = members.length ∧
      dictGet (confirm_delete_member members pending secret).2 pending = none ∧
      ∀ k, k ≠ pending →
        dictGet (confirm_delete_member members pending secret).2 k = dictGet members k) := by
  constructor
  · intro h
    simp [confirm_delete_member, h]
  · intro h hnod hmem
    simp only [confirm_delete_member, if_pos h]
    exact ⟨length_dictErase_of_mem members pending hmem,
      dictGet_dictErase_self members pending hnod,
      fun k hk => dictGet_dictErase_ne members pending k hk⟩

/-- C7 (witness for `delete_member_gated`): on a concrete two-member store,
a wrong secret is a no-op and the right secret removes exactly one entry. -/
theorem delete_member_gated_witness :
    confirm_delete_member [("alice", ⟨"Alice", 1, 2, 0⟩), ("bob", ⟨"Bob", 3, 4, 0⟩)]
        "alice" "wrong"
      = (false, [("alice", ⟨"Alice", 1, 2, 0⟩), ("bob", ⟨"Bob", 3, 4, 0⟩)]) ∧
    (confirm_delete_member [("alice", ⟨"Alice", 1, 2, 0⟩), ("bob", ⟨"Bob", 3, 4, 0⟩)]
        "alice" "windissupervippro").2.length + 1
      = ([("alice", ⟨"Alice", 1, 2, 0⟩), ("bob", ⟨"Bob", 3, 4, 0⟩)] : Store).length :=
  ⟨(delete_member_gated [("alice", ⟨"Alice", 1, 2, 0⟩), ("bob", ⟨"Bob", 3, 4, 0⟩)]
      "alice" "wrong").1 (by decide),
   ((delete_member_gated [("alice", ⟨"Alice", 1, 2, 0⟩), ("bob", ⟨"Bob", 3, 4, 0⟩)]
      "alice" "windissupervippro").2 rfl (by simp [keysNodup]) (by decide)).1⟩

/-! ### Multi-clan store (`app_2.py`) -/

/-- One clan, as created at `app_2.py` lines 564–569:
`{"name": .., "pin": .., "members": {..}, "created_at": ..}`. -/
structure Clan where
  name : String
  pin : String
  members : Store
  created_at : ℕ
deriving DecidableEq

abbrev Clans := List (String × Clan)

/-- `app_2.py` lines 762–801, add-member path, as its net effect on the
clans mapping: `members = current_clan.get('members', {})` is mutated
by the upsert and written back via `current_clan['members'] = members`
followed by `save_clans(clans)`; only the clan at `clan_key` changes. -/
def add_member_to_clan (clans : Clans) (clan_key name : String)
    (atk def_val : ℤ) (now : ℕ) : Clans :=
  dictModify clans clan_key (fun c =>
    { c with
      members := dictInsert c.members (pyLower (pyStrip name))
        ⟨pyStrip name, atk, def_val, now⟩ })

/-- C10 (theorem).  Frame effect of the add/update-member action: every
other clan is untouched; the selected clan keeps its `name`, `pin` and
`created_at` (the `{c with members := ..}` update changes nothing else);
and within the selected clan every member key other than the normalised
written key reads as before. -/
theorem add_member_frame (clans : Clans) (ckey name : String)
    (a d : ℤ) (now : ℕ) (c : Clan) (hc : dictGet clans ckey = some c) :
    (∀ k, k ≠ ckey →
      dictGet (add_member_to_clan clans ckey name a d now) k = dictGet clans k) ∧
    dictGet (add_member_to_clan clans ckey name a d now) ckey
      = some { c with
          members := dictInsert c.members (pyLower (pyStrip name))
            ⟨pyStrip name, a, d, now⟩ } ∧
    (∀ mk, mk ≠ pyLower (pyStrip name) →
      dictGet (dictInsert c.members (pyLower (pyStrip name))
          ⟨pyStrip name, a, d, now⟩) mk
        = dictGet c.members mk) ∧
    dictGet (dictInsert c.members (pyLower (pyStrip name))
        ⟨pyStrip name, a, d, now⟩) (pyLower (pyStrip name))
      = some ⟨pyStrip name, a, d, now⟩ := by
  refine ⟨fun k hk => dictGet_dictModify_ne clans ckey _ k hk,
    dictGet_dictModify_self clans ckey _ c hc,
    fun mk hmk => dictGet_insert_ne c.members _ _ mk hmk,
    dictGet_insert_self c.members _ _⟩

/-- C10 (witness for `add_member_frame`): writing `"Bob"` into clan
`"alpha"` of a two-clan store leaves clan `"beta"` untouched. -/
theorem add_member_frame_witness :
    dictGet
      (add_member_to_clan
        [("alpha", ⟨"Alpha", "1234", [], 0⟩), ("beta", ⟨"Beta", "5678", [], 0⟩)]
        "alpha" "Bob" 5 5 1) "beta"
      = dictGet
          [("alpha", ⟨"Alpha", "1234", [], 0⟩), ("beta", ⟨"Beta", "5678", [], 0⟩)]
          "beta" :=
  (add_member_frame
    [("alpha", ⟨"Alpha", "1234", [], 0⟩), ("beta", ⟨"Beta", "5678", [], 0⟩)]
    "alpha" "Bob" 5 5 1 ⟨"Alpha", "1234", [], 0⟩ (by decide)).1 "beta" (by decide)

/-! ### Legacy members file and migration (`app_2.py` `load_members`) -/

/-- A member object as stored in the legacy array format
(`[{"name": .., "atk": .., "def": ..}, …]`); `name` is `Option` so that a
missing `"name"` key (`member.get('name', '')` yields `''`) is
representable. -/
structure LegacyMember where
  name : Option String
  atk : ℤ
  def_val : ℤ
deriving DecidableEq

/-- The two top-level shapes the persisted members file can hold. -/
inductive MembersData where
  | legacyArr (entries : List LegacyMember)
  | keyedMap (m : List (String × LegacyMember))
deriving DecidableEq

/-- `member.get('name', '').lower()` (`app_2.py` line 99). -/
def legacyKey (m : LegacyMember) : String := pyLower (m.name.getD "")

/-- Loop body of the migration (`app_2.py` lines 98–101): skip entries
whose key is empty (Python string truthiness), else assign into the dict. -/
def migrate_step (acc : List (String × LegacyMember)) (m : LegacyMember) :
    List (String × LegacyMember) :=
  if legacyKey m = "" then acc else dictInsert acc (legacyKey m) m

def migrate_legacy (entries : List LegacyMember) : List (String × LegacyMember) :=
  entries.foldl migrate_step []

/-- `app_2.py` lines 89–108.  First component: the mapping returned to the
caller.  Second component: whether `save_members` was called (the source
re-saves only when `migrated_data` is non-empty: `if migrated_data:
save_members(migrated_data)`).  `none` models a missing file. -/
def load_members : Option MembersData → (List (String × LegacyMember)) × Bool
  | none => ([], false)
  | some (.keyedMap m) => (m, false)
  | some (.legacyArr entries) =>
    let migrated := migrate_legacy entries
    (migrated, !migrated.isEmpty)

lemma dictGet_isSome_foldl_migrate :
    ∀ (entries : List LegacyMember) (acc : List (String × LegacyMember)) (k : String),
      (dictGet acc k).isSome → (dictGet (entries.foldl migrate_step acc) k).isSome
  | [], acc, k, h => h
  | m :: rest, acc, k, h => by
    refine dictGet_isSome_foldl_migrate rest (migrate_step acc m) k ?_
    rw [migrate_step]
    by_cases he : legacyKey m = ""
    · simpa [he] using h
    · rw [if_neg he]
      by_cases hk : k = legacyKey m
      · rw [hk, dictGet_insert_self]
        rfl
      · rwa [dictGet_insert_ne acc (legacyKey m) m k hk]

lemma migrate_mem_aux :
    ∀ (entries : List LegacyMember) (acc : List (String × LegacyMember))
      (k : String) (v : LegacyMember),
      dictGet (entries.foldl migrate_step acc) k = some v →
      dictGet acc k = some v ∨ (v ∈ entries ∧ legacyKey v = k ∧ k ≠ "")
  | [], acc, k, v, h => Or.inl h
  | m :: rest, acc, k, v, h => by
    rcases migrate_mem_aux rest (migrate_step acc m) k v h with h1 | h1
    · rw [migrate_step] at h1
      by_cases he : legacyKey m = ""
      · rw [if_pos he] at h1
        exact Or.inl h1
      · rw [if_neg he] at h1
        by_cases hk : k = legacyKey m
        · subst hk
          rw [dictGet_insert_self] at h1
          obtain rfl : m = v := by injection h1
          exact Or.inr ⟨List.mem_cons_self m rest, rfl, he⟩
        · rw [dictGet_insert_ne acc (legacyKey m) m k hk] at h1
          exact Or.inl h1
    · exact Or.inr ⟨List.mem_cons_of_mem m h1.1, h1.2⟩

lemma migrate_isSome_aux :
    ∀ (entries : List LegacyMember) (acc : List (String × LegacyMember))
      (m : LegacyMember), m ∈ entries → legacyKey m ≠ "" →
      (dictGet (entries.foldl migrate_step acc) (legacyKey m)).isSome
  | [], _, m, hm, _ => absurd hm (List.not_mem_nil m)
  | m₀ :: rest, acc, m, hm, hne => by
    rcases List.mem_cons.1 hm with rfl | hm₀
    · refine dictGet_isSome_foldl_migrate rest (migrate_step acc m) (legacyKey m) ?_
      rw [migrate_step, if_neg hne, dictGet_insert_self]
      rfl
    · exact migrate_isSome_aux rest (migrate_step acc m₀) m hm₀ hne

/-- C6 (counterexample).  The claim's "persists the migrated mapping to
disk immediately" does not hold for every legacy array: an array whose
entries all lack a usable name migrates to the empty mapping and the
source skips the re-save (`if migrated_data:`), so no write happens. -/
theorem load_members_no_save_on_empty :
    load_members (some (.legacyArr [⟨none, 1, 2⟩])) = ([], false) := rfl

/-- C6 (amended, theorem).  Loading a legacy array returns the keyed
mapping derived by `name.lower()`, skipping entries with an empty or
missing name, and re-saves immediately **iff the migrated mapping is
non-empty**; every stored entry comes verbatim from the array under its
lowercased name, every entry with a usable name is present, and the
spec's `Bob` example migrates and re-saves as claimed. -/
theorem load_members_migration :
    (∀ entries, (load_members (some (.legacyArr entries))).1 = migrate_legacy entries ∧
      ((load_members (some (.legacyArr entries))).2 = true ↔ migrate_legacy entries ≠ [])) ∧
    (∀ entries (k : String) (v : LegacyMember),
      dictGet (migrate_legacy entries) k = some v →
      v ∈ entries ∧ legacyKey v = k ∧ k ≠ "") ∧
    (∀ entries (m : LegacyMember), m ∈ entries → legacyKey m ≠ "" →
      (dictGet (migrate_legacy entries) (legacyKey m)).isSome) ∧
    load_members (some (.legacyArr [⟨some "Bob", 5, 5⟩]))
      = ([("bob", ⟨some "Bob", 5, 5⟩)], true) := by
  refine ⟨fun entries => ⟨rfl, ?_⟩, ?_, ?_, rfl⟩
  · simp [load_members, List.isEmpty_iff]
  · intro entries k v h
    rcases migrate_mem_aux entries [] k v h with h1 | h1
    · simp [dictGet] at h1
    · exact h1
  · intro entries m hm hne
    exact migrate_isSome_aux entries [] m hm hne

/-- C6 (witness for `load_members_migration`): the `Bob` entry is present
under key `"bob"`, comes from the array, and has a non-empty key. -/
theorem load_members_migration_witness :
    (⟨some "Bob", 5, 5⟩ : LegacyMember) ∈ [(⟨some "Bob", 5, 5⟩ : LegacyMember)] ∧
    legacyKey ⟨some "Bob", 5, 5⟩ = "bob" ∧ ("bob" : String) ≠ "" :=
  load_members_migration.2.1 [⟨some "Bob", 5, 5⟩] "bob" ⟨some "Bob", 5, 5⟩ (by decide)

/-! ### IEEE binary64 model

`parse_stat_input` and `format_stat` compute with CPython floats, and some
claims turn on the exact rounding (`int(float("4.1") * 1_000_000)` is
`4099999`, not `4100000`).  Finite doubles are modelled as
`± m · 2 ^ (e - 52)` with a normalised 53-bit significand
(`2^52 ≤ m < 2^53`, or `m = 0`), built from exact decimal fractions by
correct rounding (round half to even), overflowing to `±inf` at `2^1024`.
Subnormal underflow is not modelled (no input here goes below `2^-1022`).
Everything is integer arithmetic, so terms evaluate by `rfl`/`decide`. -/

inductive PyFloat where
  | finite (neg : Bool) (m : ℕ) (e : ℤ)
  | inf
  | ninf
  | nan
deriving DecidableEq

/-- Number of binary digits of `n` (`bitLen 0 = 0`, `bitLen 1 = 1`):
fuel-based structural recursion so the kernel can evaluate it; the fuel
covers every number below `2^4096`, far beyond any value arising here. -/
def bitLenAux : ℕ → ℕ → ℕ
  | 0, _ => 0
  | fuel + 1, n => if n = 0 then 0 else bitLenAux fuel (n / 2) + 1

def bitLen (n : ℕ) : ℕ := bitLenAux 4096 n

/-- Largest `c` with `2^c ≤ n / d`, for `n, d ≥ 1`. -/
def qfloorLog2 (n d : ℕ) : ℤ :=
  let c : ℤ := (bitLen n : ℤ) - (bitLen d : ℤ)
  let le : Bool := if 0 ≤ c then decide (d * 2 ^ c.toNat ≤ n) else decide (d ≤ n * 2 ^ (-c).toNat)
  if le then c else c - 1

/-- Round the positive rational `n / d` to 53 significant bits, half to
even: returns `(m, e)` with `2^52 ≤ m < 2^53` and
`m · 2 ^ (e - 52)` the nearest binary64 value (unbounded exponent). -/
def roundPosRat (n d : ℕ) : ℕ × ℤ :=
  let e := qfloorLog2 n d
  let s : ℤ := 52 - e
  let num := if 0 ≤ s then n * 2 ^ s.toNat else n
  let den := if 0 ≤ s then d else d * 2 ^ (-s).toNat
  let fl := num / den
  let rem := num % den
  let m := if 2 * rem < den then fl
           else if den < 2 * rem then fl + 1
           else if fl % 2 = 0 then fl else fl + 1
  if m = 2 ^ 53 then (2 ^ 52, e + 1) else (m, e)

/-- The correctly-rounded binary64 value of `± n / d`; exponents at 1024
and beyond overflow to the infinities, as IEEE round-to-nearest does. -/
def mkFloatRat (neg : Bool) (n d : ℕ) : PyFloat :=
  if n = 0 then .finite neg 0 0
  else
    let me := roundPosRat n d
    if 1024 ≤ me.2 then (if neg then .ninf else .inf)
    else .finite neg me.1 me.2

def negFloat : PyFloat → PyFloat
  | .finite b m e => .finite (!b) m e
  | .inf => .ninf
  | .ninf => .inf
  | .nan => .nan

/-- Binary64 multiplication of a float by an integer literal — the
`number * 1_000_000` / `number * 1_000` steps of the source: the exact
product re-rounded. -/
def pyMulNat (f : PyFloat) (k : ℕ) : PyFloat :=
  match f with
  | .finite neg m e =>
    if 52 ≤ e then mkFloatRat neg (m * k * 2 ^ (e - 52).toNat) 1
    else mkFloatRat neg (m * k) (2 ^ (52 - e).toNat)
  | .inf => .inf
  | .ninf => .ninf
  | .nan => .nan

inductive PyErr where
  | valueError
  | overflowError
  | attributeError
deriving DecidableEq

/-- `int(<float>)`: truncation toward zero; `OverflowError` on the
infinities and `ValueError` on NaN, exactly as CPython raises them. -/
def pyIntOfFloat : PyFloat → Except PyErr ℤ
  | .finite neg m e =>
    let t : ℕ := if 52 ≤ e then m * 2 ^ (e - 52).toNat else m / 2 ^ (52 - e).toNat
    .ok (if neg then -(t : ℤ) else (t : ℤ))
  | .inf => .error .overflowError
  | .ninf => .error .overflowError
  | .nan => .error .valueError

def digitsVal (l : List Char) : ℕ := l.foldl (fun a c => a * 10 + (c.toNat - 48)) 0

/-- `digits [. digits]` (at least one digit overall) as an exact decimal
fraction: returns `(D, f)` with value `D / 10^f`. -/
def parseMantissa (l : List Char) : Option (ℕ × ℕ) :=
  let intPart := l.takeWhile (fun c => c ≠ '.')
  let rest := l.dropWhile (fun c => c ≠ '.')
  match rest with
  | [] =>
    if !intPart.isEmpty && intPart.all Char.isDigit then some (digitsVal intPart, 0)
    else none
  | _ :: fracPart =>
    if (!intPart.isEmpty || !fracPart.isEmpty) && intPart.all Char.isDigit
        && fracPart.all Char.isDigit then
      some (digitsVal intPart * 10 ^ fracPart.length + digitsVal fracPart, fracPart.length)
    else none

def splitSign : List Char → Bool × List Char
  | '-' :: r => (true, r)
  | '+' :: r => (false, r)
  | r => (false, r)

/-- The decimal grammar of `float()` after sign removal:
`mant [E [sign] digits]`, evaluated exactly and then correctly rounded
(underscores in numeric literals, accepted by CPython ≥ 3.6, are not
modelled; no claim input contains them). -/
def parseAbsFloat (l : List Char) : Option PyFloat :=
  let mant := l.takeWhile (fun c => c ≠ 'E')
  let erest := l.dropWhile (fun c => c ≠ 'E')
  match erest with
  | [] => (parseMantissa mant).map (fun Df => mkFloatRat false Df.1 (10 ^ Df.2))
  | _ :: etail =>
    match parseMantissa mant with
    | none => none
    | some Df =>
      let se := splitSign etail
      if !se.2.isEmpty && se.2.all Char.isDigit then
        let ex := digitsVal se.2
        if se.1 then some (mkFloatRat false Df.1 (10 ^ Df.2 * 10 ^ ex))
        else some (mkFloatRat false (Df.1 * 10 ^ ex) (10 ^ Df.2))
      else none

/-- `float(s)` on an already-stripped, uppercased string (`float()` parses
case-insensitively and every call in the source passes an uppercased
argument): `none` models `ValueError`. -/
def floatOfString (s : String) : Option PyFloat :=
  let sd := splitSign s.data
  if sd.2 = "INF".data || sd.2 = "INFINITY".data then
    some (if sd.1 then .ninf else .inf)
  else if sd.2 = "NAN".data then some .nan
  else
    match parseAbsFloat sd.2 with
    | none => none
    | some f => some (if sd.1 then negFloat f else f)

/-- A value reaching `parse_stat_input`: the source's callers pass strings
from text inputs or numbers. -/
inductive PyValue where
  | ofInt (n : ℤ)
  | ofFloat (f : PyFloat)
  | ofStr (s : String)
deriving DecidableEq

/-- `app_2.py` lines 130–148.  `isinstance(value_str, (int, float))` takes
the numeric branch (outside the `try`); otherwise the string is stripped,
uppercased, its spaces removed; an `'M'` anywhere selects the ×1_000_000
branch with every `'M'` removed (as `str.replace` does), else `'K'`
×1_000, else a plain `int(float(..))`.  `except (ValueError,
AttributeError)` yields 0; any other exception — notably `OverflowError`
from `int()` of an infinity — propagates out of the function. -/
def parse_stat_input (value_str : PyValue) : Except PyErr ℤ :=
  match value_str with
  | .ofInt n => .ok n
  | .ofFloat f => pyIntOfFloat f
  | .ofStr s =>
    let cs := ((pyStrip s).data.map Char.toUpper).filter (fun c => c ≠ ' ')
    let body : Except PyErr ℤ :=
      if cs.contains 'M' then
        match floatOfString ⟨cs.filter (fun c => c ≠ 'M')⟩ with
        | none => .error .valueError
        | some f => pyIntOfFloat (pyMulNat f 1000000)
      else if cs.contains 'K' then
        match floatOfString ⟨cs.filter (fun c => c ≠ 'K')⟩ with
        | none => .error .valueError
        | some f => pyIntOfFloat (pyMulNat f 1000)
      else
        match floatOfString ⟨cs⟩ with
        | none => .error .valueError
        | some f => pyIntOfFloat f
    match body with
    | .error .valueError => .ok 0
    | .error .attributeError => .ok 0
    | r => r

/-- The binary64 value of the true division `value / n` (int / int in
`format_stat`).  For `|value| / n ≥ 2^1024` CPython raises
`OverflowError`; this model yields `±inf` instead — every value the store
can hold is far below that. -/
def pyDivFloat (value : ℤ) (n : ℕ) : PyFloat :=
  mkFloatRat (decide (value < 0)) value.natAbs n

/-- `f"{x:.1f}"` for a finite float: CPython formats the exact binary
value, rounding half to even at one decimal.  Only the nonnegative finite
case is reachable from `format_stat`. -/
def fmtOneDec (f : PyFloat) : String :=
  match f with
  | .finite neg m e =>
    let num := if 52 ≤ e then m * 10 * 2 ^ (e - 52).toNat else m * 10
    let den := if 52 ≤ e then 1 else 2 ^ (52 - e).toNat
    let fl := num / den
    let rem := num % den
    let t := if 2 * rem < den then fl
             else if den < 2 * rem then fl + 1
             else if fl % 2 = 0 then fl else fl + 1
    (if neg then "-" else "") ++ toString (t / 10) ++ "." ++ toString (t % 10)
  | .inf => "inf"
  | .ninf => "-inf"
  | .nan => "nan"

/-- `app_2.py` lines 121–128. -/
def format_stat (value : ℤ) : String :=
  if 1000000 ≤ value then fmtOneDec (pyDivFloat value 1000000) ++ "M"
  else if 1000 ≤ value then fmtOneDec (pyDivFloat value 1000) ++ "K"
  else toString value

/-! ### Claims C3, C8, C9 -/

/-- C3 (code_bug, evaluation).  `parse_stat_input` at the failing inputs:
`"4.1M"` yields `4099999`, not the documented `4_100_000` (the binary64
nearest to 4.1 is below 4.1, the product `4099999.9999999995` is truncated
by `int()` — yet the source's own Gemini prompt states `"4.1M" should
become 4100000`); and `"inf"` raises an uncaught `OverflowError`, so the
parser is not "total and never raises".  The remaining claimed examples do
hold. -/
theorem parse_stat_eval :
    parse_stat_input (.ofStr "4.1M") = .ok 4099999 ∧
    parse_stat_input (.ofStr "inf") = .error .overflowError ∧
    parse_stat_input (.ofStr "2M") = .ok 2000000 ∧
    parse_stat_input (.ofStr "500K") = .ok 500000 ∧
    parse_stat_input (.ofStr "abc") = .ok 0 ∧
    parse_stat_input (.ofStr "") = .ok 0 ∧
    parse_stat_input (.ofInt 1500) = .ok 1500 :=
  ⟨rfl, rfl, rfl, rfl, rfl, rfl, rfl⟩

/-- C9 (theorem).  Negative magnitudes parse and truncate toward zero —
`"-2M"` to `-2000000`, `"-1.9"` to `-1`, `"1.9"` to `1` — and the upsert
path stores such a negative value verbatim as `atk`. -/
theorem parse_negative_eval :
    parse_stat_input (.ofStr "-2M") = .ok (-2000000) ∧
    parse_stat_input (.ofStr "-1.9") = .ok (-1) ∧
    parse_stat_input (.ofStr "1.9") = .ok 1 ∧
    dictGet (upsert_member [] "Neg" (-2000000) 0 7).2 (pyLower (pyStrip "Neg"))
      = some ⟨pyStrip "Neg", -2000000, 0, 7⟩ :=
  ⟨rfl, rfl, rfl, rfl⟩

/-- C8 (theorem).  `format_stat` splits at one million and one thousand:
values ≥ 1_000_000 format the binary64 quotient by 1_000_000 to one
decimal with an `"M"` suffix, values in [1_000, 1_000_000) likewise with
`"K"`, anything below is the plain integer string; with the claimed
examples. -/
theorem format_stat_spec :
    (∀ v : ℤ, 1000000 ≤ v →
      format_stat v = fmtOneDec (pyDivFloat v 1000000) ++ "M") ∧
    (∀ v : ℤ, 1000 ≤ v → v < 1000000 →
      format_stat v = fmtOneDec (pyDivFloat v 1000) ++ "K") ∧
    (∀ v : ℤ, v < 1000 → format_stat v = toString v) ∧
    format_stat 2500000 = "2.5M" ∧ format_stat 1500 = "1.5K" ∧
    format_stat 999 = "999" := by
  refine ⟨fun v h => ?_, fun v h1 h2 => ?_, fun v h => ?_, rfl, rfl, rfl⟩
  · rw [format_stat, if_pos h]
  · rw [format_stat, if_neg (not_le.mpr h2), if_pos h1]
  · rw [format_stat, if_neg (not_le.mpr (lt_trans h (by norm_num))),
      if_neg (not_le.mpr h)]

/-- C8 (witness for `format_stat_spec`). -/
theorem format_stat_spec_witness :
    format_stat 2500000 = fmtOneDec (pyDivFloat 2500000 1000000) ++ "M" :=
  format_stat_spec.1 2500000 (by norm_num)

end Fomo
